import Mathlib

/-!
Verification of the variant-resolution and content-addressed caching core of
the `twitter_video_bot` repository (`bot/downloader.py`, `bot/cache.py`,
`bot/utils.py`, `bot/main.py`).

Strings manipulated by the Python code are modelled as `String` / `List Char`;
Python byte strings as `List Nat` (each entry `< 256`); the filesystem touched
by the download/cache flow as an association list from `(directory, filename)`
pairs to file contents.  The external collaborators (yt-dlp, the Telegram
transport) are modelled as oracle functions.
-/

/-! ### Python string primitives (`bot/downloader.py` uses `str.strip`,
`str.replace` and the `in` substring test) -/

/-- ASCII whitespace stripped by Python's `str.strip()`. -/
def pyWs (c : Char) : Bool :=
  c = ' ' ∨ c = '\t' ∨ c = '\n' ∨ c = '\r' ∨ c = Char.ofNat 11 ∨ c = Char.ofNat 12

/-- Python `s.strip()`: drop whitespace from both ends. -/
def pyStrip (s : List Char) : List Char :=
  ((s.dropWhile pyWs).reverse.dropWhile pyWs).reverse

/-- Python `"pat" in s` (substring containment). -/
def containsSub (s pat : List Char) : Bool :=
  decide (pat <:+: s)

/-- Fuel-driven worker for `replaceAll`; with `fuel ≥ s.length` and a nonempty
pattern it replaces every leftmost non-overlapping occurrence, exactly like
Python's `str.replace`. -/
def replaceAllAux (pat rep : List Char) : Nat → List Char → List Char
  | _, [] => []
  | 0, s => s
  | fuel + 1, c :: cs =>
    if pat.isPrefixOf (c :: cs) then
      rep ++ replaceAllAux pat rep fuel ((c :: cs).drop pat.length)
    else
      c :: replaceAllAux pat rep fuel cs

/-- Python `s.replace(pat, rep)` for a nonempty pattern. -/
def replaceAll (pat rep s : List Char) : List Char :=
  replaceAllAux pat rep s.length s

/-! ### URL Normalizer (`bot/downloader.py`, `normalize_twitter_url`) -/

def mobileStr : List Char := "mobile.twitter.com".data

def twitterStr : List Char := "twitter.com".data

def xComStr : List Char := "x.com/".data

def twitterSlashStr : List Char := "twitter.com/".data

def tCoStr : List Char := "t.co/".data

/-- `normalize_twitter_url` from `bot/downloader.py`:
```
url = url.strip()
url = url.replace("mobile.twitter.com", "twitter.com")
if "x.com/" in url and "twitter.com" not in url:
    url = url.replace("x.com/", "twitter.com/")
if "t.co/" in url and "twitter.com" not in url:
    url = url.replace("t.co/", "twitter.com/")
return url
``` -/
def normalize_twitter_url (url : List Char) : List Char :=
  let u1 := pyStrip url
  let u2 := replaceAll mobileStr twitterStr u1
  let u3 :=
    if containsSub u2 xComStr && !containsSub u2 twitterStr then
      replaceAll xComStr twitterSlashStr u2
    else u2
  if containsSub u3 tCoStr && !containsSub u3 twitterStr then
    replaceAll tCoStr twitterSlashStr u3
  else u3

/-- `normalize_twitter_url` lifted to `String` (used by `main.py`). -/
def normalizeUrl (s : String) : String :=
  ⟨normalize_twitter_url s.data⟩

example :
    normalizeUrl "https://x.com/a/status/1" = "https://twitter.com/a/status/1" := by
  decide

example :
    normalizeUrl "https://mobile.twitter.com/a/status/1" = "https://twitter.com/a/status/1" := by
  decide

example :
    normalizeUrl "https://t.co/a/status/1" = "https://twitter.com/a/status/1" := by
  decide

example :
    normalizeUrl "https://mobile.x.com/a/status/1" = "https://mobile.twitter.com/a/status/1" := by
  decide

/-! ### URL extraction (`bot/utils.py`)

`X_URL_RE = re.compile(r"https?://(x|twitter|mobile\.twitter|t\.co)\.com?/[\w\-_/%.?=&]+", re.IGNORECASE)`

The four host alternatives are plain literals that pairwise disagree on their
first or second character, so at any position at most one of them can match and
the regex engine never backtracks across the alternation.  Both optional
letters (`s?` in `https?` and `m?` in `com?`) are followed by a character that
can never equal them (`:` resp. `/`), so the greedy choice is forced as well.
The matcher below therefore implements the regex deterministically.  `\w` is
modelled as ASCII letters, digits and underscore. -/

/-- Case-insensitive literal match; returns the remainder on success. -/
def litMatch : List Char → List Char → Option (List Char)
  | [], s => some s
  | _ :: _, [] => none
  | a :: l, b :: s => if a.toLower = b.toLower then litMatch l s else none

/-- The character class `[\w\-_/%.?=&]` of `X_URL_RE`. -/
def isPathChar (c : Char) : Bool :=
  c.isAlpha || c.isDigit || c = '_' || c = '-' || c = '/' || c = '%' || c = '.' ||
    c = '?' || c = '=' || c = '&'

/-- The alternation `(x|twitter|mobile\.twitter|t\.co)`, tried in order. -/
def altHost (s : List Char) : Option (List Char) :=
  match litMatch "x".data s with
  | some r => some r
  | none =>
    match litMatch "twitter".data s with
    | some r => some r
    | none =>
      match litMatch "mobile.twitter".data s with
      | some r => some r
      | none => litMatch "t.co".data s

/-- Match `X_URL_RE` at the start of `s`; returns the matched prefix
(`match.group(0)`). -/
def matchXUrl (s : List Char) : Option (List Char) :=
  match litMatch "http".data s with
  | none => none
  | some r1 =>
    let r2 := match r1 with
      | c :: rest => if c.toLower = 's' then rest else r1
      | [] => r1
    match litMatch "://".data r2 with
    | none => none
    | some r3 =>
      match altHost r3 with
      | none => none
      | some r4 =>
        match litMatch ".co".data r4 with
        | none => none
        | some r5 =>
          let r6 := match r5 with
            | c :: rest => if c.toLower = 'm' then rest else r5
            | [] => r5
          match r6 with
          | '/' :: r7 =>
            let run := r7.takeWhile isPathChar
            if run.isEmpty then none
            else some (s.take (s.length - (r7.drop run.length).length))
          | _ => none

/-- `re.search`: leftmost match of `X_URL_RE` in `s`. -/
def searchXUrl : List Char → Option (List Char)
  | [] => none
  | c :: cs =>
    match matchXUrl (c :: cs) with
    | some m => some m
    | none => searchXUrl cs

/-- `extract_url` from `bot/utils.py`:
```
if not text:
    return None
match = X_URL_RE.search(text.strip())
return match.group(0) if match else None
``` -/
def extract_url (text : String) : Option String :=
  if text = "" then none
  else (searchXUrl (pyStrip text.data)).map String.mk

example : extract_url "https://t.co/a/status/1" = none := by decide

example :
    extract_url "check https://twitter.com/u/status/1 out" =
      some "https://twitter.com/u/status/1" := by
  decide

example : extract_url "https://t.co.com/a/b" = some "https://t.co.com/a/b" := by decide

example : extract_url "https://x.co/a" = some "https://x.co/a" := by decide

example : extract_url "" = none := by decide

example : extract_url "no link here" = none := by decide

/-! ### SHA-256 (`hashlib.sha256` as used by `bot/cache.py`)

Executable 32-bit-word implementation over `Nat`, with overflow made explicit
as `% 2 ^ 32`. -/

/-- Truncation to a 32-bit word. -/
def w32 (x : Nat) : Nat := x % 4294967296

/-- Right rotation of a 32-bit word. -/
def rotr32 (n x : Nat) : Nat := w32 ((x >>> n) ||| (x <<< (32 - n)))

def shaCh (x y z : Nat) : Nat := Nat.xor (Nat.land x y) (Nat.land (Nat.xor x 4294967295) z)

def shaMaj (x y z : Nat) : Nat :=
  Nat.xor (Nat.xor (Nat.land x y) (Nat.land x z)) (Nat.land y z)

def bigSigma0 (x : Nat) : Nat := Nat.xor (Nat.xor (rotr32 2 x) (rotr32 13 x)) (rotr32 22 x)

def bigSigma1 (x : Nat) : Nat := Nat.xor (Nat.xor (rotr32 6 x) (rotr32 11 x)) (rotr32 25 x)

def smallSigma0 (x : Nat) : Nat := Nat.xor (Nat.xor (rotr32 7 x) (rotr32 18 x)) (x >>> 3)

def smallSigma1 (x : Nat) : Nat := Nat.xor (Nat.xor (rotr32 17 x) (rotr32 19 x)) (x >>> 10)

/-- The 64 SHA-256 round constants. -/
def shaK : List Nat :=
  [1116352408, 1899447441, 3049323471, 3921009573, 961987163, 1508970993,
   2453635748, 2870763221, 3624381080, 310598401, 607225278, 1426881987,
   1925078388, 2162078206, 2614888103, 3248222580, 3835390401, 4022224774,
   264347078, 604807628, 770255983, 1249150122, 1555081692, 1996064986,
   2554220882, 2821834349, 2952996808, 3210313671, 3336571891, 3584528711,
   113926993, 338241895, 666307205, 773529912, 1294757372, 1396182291,
   1695183700, 1986661051, 2177026350, 2456956037, 2730485921, 2820302411,
   3259730800, 3345764771, 3516065817, 3600352804, 4094571909, 275423344,
   430227734, 506948616, 659060556, 883997877, 958139571, 1322822218,
   1537002063, 1747873779, 1955562222, 2024104815, 2227730452, 2361852424,
   2428436474, 2756734187, 3204031479, 3329325298]

/-- The eight working variables of the compression function. -/
structure Hash8 where
  a : Nat
  b : Nat
  c : Nat
  d : Nat
  e : Nat
  f : Nat
  g : Nat
  h : Nat

/-- The SHA-256 initial hash value. -/
def shaH0 : Hash8 :=
  ⟨1779033703, 3144134277, 1013904242, 2773480762,
   1359893119, 2600822924, 528734635, 1541459225⟩

/-- Big-endian 8-byte encoding of a (64-bit) value. -/
def toBE8 (n : Nat) : List Nat :=
  [(n >>> 56) % 256, (n >>> 48) % 256, (n >>> 40) % 256, (n >>> 32) % 256,
   (n >>> 24) % 256, (n >>> 16) % 256, (n >>> 8) % 256, n % 256]

/-- Big-endian 4-byte encoding of a 32-bit word. -/
def toBE4 (n : Nat) : List Nat :=
  [(n >>> 24) % 256, (n >>> 16) % 256, (n >>> 8) % 256, n % 256]

/-- SHA-256 message padding: append `0x80`, zeros to 56 mod 64, then the
bit length as 8 big-endian bytes. -/
def shaPad (msg : List Nat) : List Nat :=
  msg ++ 128 :: List.replicate ((119 - msg.length % 64) % 64) 0 ++ toBE8 (8 * msg.length)

/-- Group bytes into big-endian 32-bit words. -/
def beWords : List Nat → List Nat
  | a :: b :: c :: d :: rest => (a * 16777216 + b * 65536 + c * 256 + d) :: beWords rest
  | _ => []

/-- Fuel-driven worker for `shaBlocks`; any `fuel ≥ bytes.length` is enough. -/
def shaBlocksAux : Nat → List Nat → List (List Nat)
  | _, [] => []
  | 0, _ => []
  | fuel + 1, bytes => bytes.take 64 :: shaBlocksAux fuel (bytes.drop 64)

/-- Split a byte list into 64-byte blocks. -/
def shaBlocks (bytes : List Nat) : List (List Nat) :=
  shaBlocksAux bytes.length bytes

/-- Extend the 16 block words to the 64-entry message schedule. -/
def shaSchedule (ws : List Nat) : List Nat :=
  (List.range 48).foldl
    (fun acc _ =>
      acc ++ [w32 (smallSigma1 (acc.getD (acc.length - 2) 0) + acc.getD (acc.length - 7) 0 +
        smallSigma0 (acc.getD (acc.length - 15) 0) + acc.getD (acc.length - 16) 0)])
    ws

/-- One round of the compression function. -/
def shaRound (st : Hash8) (kw : Nat × Nat) : Hash8 :=
  let t1 := w32 (st.h + bigSigma1 st.e + shaCh st.e st.f st.g + kw.1 + kw.2)
  let t2 := w32 (bigSigma0 st.a + shaMaj st.a st.b st.c)
  ⟨w32 (t1 + t2), st.a, st.b, st.c, w32 (st.d + t1), st.e, st.f, st.g⟩

/-- Process one 64-byte block. -/
def shaCompress (hv : Hash8) (block : List Nat) : Hash8 :=
  let st := (shaK.zip (shaSchedule (beWords block))).foldl
    (fun st p => shaRound st (p.1, p.2)) hv
  ⟨w32 (hv.a + st.a), w32 (hv.b + st.b), w32 (hv.c + st.c), w32 (hv.d + st.d),
   w32 (hv.e + st.e), w32 (hv.f + st.f), w32 (hv.g + st.g), w32 (hv.h + st.h)⟩

/-- SHA-256 digest of a byte string, as 32 bytes. -/
def sha256Bytes (msg : List Nat) : List Nat :=
  let hv := (shaBlocks (shaPad msg)).foldl shaCompress shaH0
  toBE4 hv.a ++ toBE4 hv.b ++ toBE4 hv.c ++ toBE4 hv.d ++ toBE4 hv.e ++ toBE4 hv.f ++
    toBE4 hv.g ++ toBE4 hv.h

/-- Lowercase hex digit. -/
def hexChar (n : Nat) : Char :=
  if n < 10 then Char.ofNat (48 + n) else Char.ofNat (87 + n)

/-- `hashlib.sha256(msg).hexdigest()` as a list of characters. -/
def sha256HexChars (msg : List Nat) : List Char :=
  (sha256Bytes msg).flatMap (fun b => [hexChar (b / 16), hexChar (b % 16)])

/-- UTF-8 encoding of one code point. -/
def utf8Char (c : Char) : List Nat :=
  let n := c.toNat
  if n < 128 then [n]
  else if n < 2048 then [192 + n / 64, 128 + n % 64]
  else if n < 65536 then [224 + n / 4096, 128 + n / 64 % 64, 128 + n % 64]
  else [240 + n / 262144, 128 + n / 4096 % 64, 128 + n / 64 % 64, 128 + n % 64]

/-- Python `s.encode("utf-8")`. -/
def utf8Encode (s : String) : List Nat :=
  s.data.flatMap utf8Char

/-! ### Cache Key/Path Mapper (`bot/cache.py`) -/

/-- `build_cache_key` from `bot/cache.py`:
`hashlib.sha256(f"{video_id}:{quality_label}".encode("utf-8")).hexdigest()[:32]`. -/
def build_cache_key (video_id quality_label : String) : String :=
  ⟨(sha256HexChars (utf8Encode (video_id ++ ":" ++ quality_label))).take 32⟩

/-- `os.path.join(dir, name)` for a relative `name` and a `dir` without a
trailing separator. -/
def joinPath (dir name : String) : String :=
  dir ++ "/" ++ name

/-- `get_cached_file_path` from `bot/cache.py`: `os.path.join(cache_dir, f"{cache_key}.mp4")`. -/
def get_cached_file_path (cache_dir cache_key : String) : String :=
  joinPath cache_dir (cache_key ++ ".mp4")

example : build_cache_key "123" "720p" = "735dc9df27f4624252adcb447b04f2c6" := by decide

example : build_cache_key "123" "480p" = "a5dbad923756db5a9eb8431b1c0c0543" := by decide

example : build_cache_key "124" "720p" = "41f150f1443a2b6145d98118411a32d7" := by decide

example : build_cache_key "42" "720p" = "c1bfd6d17cef5fa0f1c26aa1c7064f8b" := by decide

/-! ### Variant Resolver data model (`bot/downloader.py`)

Python dictionary fields are modelled as `Option`-typed structure fields
(`none` = key absent or `None`).  Python truthiness on strings/lists/ints is
made explicit by the `py*` helpers. -/

/-- Python `a or b` on optional strings (`""` and `None` are falsy). -/
def pyOrStr (a b : Option String) : Option String :=
  match a with
  | some s => if s = "" then b else some s
  | none => b

/-- Python `a or d` for an optional string against a string default. -/
def pyStrOr (a : Option String) (d : String) : String :=
  match a with
  | some s => if s = "" then d else s
  | none => d

/-- Python `a or b` on optional ints (`0` and `None` are falsy). -/
def pyOrInt (a b : Option Int) : Option Int :=
  match a with
  | some n => if n = 0 then b else some n
  | none => b

/-- Python `o or []` / `info.get(k) or []` on an optional list. -/
def pyList {α : Type} (o : Option (List α)) : List α :=
  match o with
  | some l => l
  | none => []

/-- Python truthiness of an optional string. -/
def truthyStr (o : Option String) : Bool :=
  match o with
  | some s => s ≠ ""
  | none => false

/-- One entry of yt-dlp's `formats` list (the fields read by the code). -/
structure RawFormat where
  vcodec : Option String
  ext : Option String
  height : Option Nat
  format_id : Option String
  filesize : Option Int
  filesize_approx : Option Int
deriving DecidableEq

/-- The fields of one yt-dlp info dictionary read by `extract_info` /
`extract_variants` (without `entries`). -/
structure RawItem where
  id : Option String
  title : Option String
  uploader : Option String
  channel : Option String
  uploader_id : Option String
  upload_date : Option String
  description : Option String
  formats : Option (List RawFormat)
  thumbnails : Option (List String)
  media_urls : Option (List String)
  is_animated_gif : Bool
  animated_gif : Bool
deriving DecidableEq

/-- A top-level yt-dlp info dictionary, possibly a playlist-like container.
The code only descends one level into `entries`. -/
structure RawInfo extends RawItem where
  entries : Option (List (Option RawItem))
deriving DecidableEq

/-- `VideoVariant` from `bot/downloader.py`. -/
structure VideoVariant where
  format_id : String
  quality_label : String
  ext : String
  filesize : Option Int
deriving DecidableEq

/-- `ExtractResult` from `bot/downloader.py`. -/
structure ExtractResult where
  video_id : String
  title : String
  uploader : Option String
  upload_date : Option String
  description : Option String
  variants : List VideoVariant
  media_type : String
deriving DecidableEq

/-- `QUALITY_ORDER = ["1080", "720", "480", "360", "240"]`. -/
def QUALITY_ORDER : List String := ["1080", "720", "480", "360", "240"]

/-- The playlist handling of `extract_info`:
```
if info.get("entries"):
    entries = [e for e in info["entries"] if e]
    if entries:
        info = entries[0]
```
-/
def selectItem (info : RawInfo) : RawItem :=
  match info.entries with
  | some es =>
    if es.isEmpty then info.toRawItem
    else
      match es.filterMap id with
      | [] => info.toRawItem
      | e :: _ => e
  | none => info.toRawItem

/-- The video-format filter of `extract_info`:
`f.get("vcodec") and f.get("vcodec") != "none" and f.get("ext") in ("mp4", "webm")`. -/
def isVideoFormat (f : RawFormat) : Bool :=
  truthyStr f.vcodec && f.vcodec ≠ some "none" && (f.ext = some "mp4" || f.ext = some "webm")

/-- The dictionary returned by `extract_info`. -/
structure InfoData where
  item : RawItem
  media_type : String
  video_formats : List RawFormat
  images : List String
  media_urls : List String
  is_gif : Bool
deriving DecidableEq

/-- `extract_info` from `bot/downloader.py`, with the external engine's answer
(`ydl.extract_info(url, download=False)`) supplied as the argument; `none`
models a falsy (absent/empty) result, which raises
`ValueError("Could not read post or URL is invalid.")`. -/
def extract_info (oi : Option RawInfo) : Except String InfoData :=
  match oi with
  | none => Except.error "Could not read post or URL is invalid."
  | some info =>
    let it := selectItem info
    let formats := pyList it.formats
    let images := pyList it.thumbnails
    let media_urls := pyList it.media_urls
    let is_gif := it.is_animated_gif || it.animated_gif
    let video_formats := formats.filter isVideoFormat
    let media_type :=
      if !video_formats.isEmpty then "video"
      else if is_gif then "gif"
      else if !images.isEmpty || !media_urls.isEmpty then "photo"
      else "none"
    Except.ok ⟨it, media_type, video_formats, images, media_urls, is_gif⟩

/-- The variant-construction loop of `extract_variants`: formats without a
truthy `height` are skipped; `str(f.get("format_id"))` renders `None` as
`"None"`; `ext` defaults to `"mp4"`; `filesize` falls back to
`filesize_approx`. -/
def variantsOfFormats (formats : List RawFormat) : List VideoVariant :=
  formats.filterMap (fun f =>
    match f.height with
    | none => none
    | some h =>
      if h = 0 then none
      else some
        { format_id := match f.format_id with | some s => s | none => "None"
          quality_label := toString h ++ "p"
          ext := f.ext.getD "mp4"
          filesize := pyOrInt f.filesize f.filesize_approx })

/-- One step of the deduplication loop over `best_by_label`
(an insertion-ordered dictionary, modelled as an association list). -/
def dedupStep (m : List (String × VideoVariant)) (v : VideoVariant) :
    List (String × VideoVariant) :=
  match m.lookup v.quality_label with
  | none => m ++ [(v.quality_label, v)]
  | some existing =>
    if (v.filesize.getD 0) > (existing.filesize.getD 0) then
      m.map (fun p => if p.1 = v.quality_label then (v.quality_label, v) else p)
    else m

/-- The `best_by_label` dictionary after the deduplication loop. -/
def best_by_label (variants : List VideoVariant) : List (String × VideoVariant) :=
  variants.foldl dedupStep []

/-- `sort_key` from `extract_variants`:
```
num = ''.join([c for c in v.quality_label if c.isdigit()]) or "0"
order_score = QUALITY_ORDER.index(num) if num in QUALITY_ORDER else len(QUALITY_ORDER)
return (order_score, -(v.filesize or 0))
``` -/
def qualityNum (v : VideoVariant) : String :=
  let digits := v.quality_label.data.filter Char.isDigit
  if digits.isEmpty then "0" else ⟨digits⟩

def sort_key (v : VideoVariant) : Nat × Int :=
  let num := qualityNum v
  let order_score := if num ∈ QUALITY_ORDER then QUALITY_ORDER.indexOf num
    else QUALITY_ORDER.length
  (order_score, -(v.filesize.getD 0))

/-- The sorting relation induced by `sort_key` (lexicographic tuple order, as
used by Python's `sorted`). -/
def sortRel (a b : VideoVariant) : Prop :=
  (sort_key a).1 < (sort_key b).1 ∨
    ((sort_key a).1 = (sort_key b).1 ∧ (sort_key a).2 ≤ (sort_key b).2)

instance : DecidableRel sortRel := fun a b => by
  unfold sortRel
  infer_instance

instance : IsTotal VideoVariant sortRel where
  total a b := by
    unfold sortRel
    omega

instance : IsTrans VideoVariant sortRel where
  trans a b c hab hbc := by
    unfold sortRel at *
    omega

/-- `final_variants = sorted(best_by_label.values(), key=sort_key)`.  Python's
`sorted` is a stable sort; a stable sort by a total preorder has a unique
result, so the stable `List.insertionSort` is an exact model. -/
def resolveVariants (variants : List VideoVariant) : List VideoVariant :=
  List.insertionSort sortRel ((best_by_label variants).map Prod.snd)

/-- `extract_variants` from `bot/downloader.py` (the engine answer passed
through to `extract_info`). -/
def extract_variants (oi : Option RawInfo) : Except String ExtractResult :=
  match extract_info oi with
  | Except.error e => Except.error e
  | Except.ok d =>
    let info := d.item
    Except.ok
      { video_id := pyStrOr info.id "video"
        title := pyStrOr info.title ""
        uploader := pyOrStr (pyOrStr info.uploader info.channel) info.uploader_id
        upload_date := info.upload_date
        description := info.description
        variants := resolveVariants (variantsOfFormats d.video_formats)
        media_type := d.media_type }

/-! ### Filesystem model and download/cache flow (`bot/main.py`,
`download_format` in `bot/downloader.py`, `is_cached` in `bot/cache.py`)

Files live in flat directories; a path is a `(directory, filename)` pair and
its string form is `joinPath`.  Since every path compared by the code lives in
the single download directory, pair equality coincides with path-string
equality.  The yt-dlp download call is an oracle `FS → Except String FS`
mutating the filesystem or failing. -/

/-- A filesystem: association list from `(directory, filename)` to contents. -/
structure FS where
  files : List ((String × String) × String)
deriving DecidableEq

/-- Contents at a path, if the file exists. -/
def FS.lookupFile (fs : FS) (d n : String) : Option String :=
  fs.files.lookup (d, n)

/-- `os.path.exists`. -/
def FS.hasFile (fs : FS) (d n : String) : Bool :=
  (fs.lookupFile d n).isSome

/-- `os.listdir d` (in storage order). -/
def FS.listdir (fs : FS) (d : String) : List String :=
  (fs.files.filter (fun e => e.1.1 = d)).map (fun e => e.1.2)

/-- `os.remove`. -/
def FS.removeFile (fs : FS) (d n : String) : FS :=
  ⟨fs.files.filter (fun e => !(e.1 == (d, n)))⟩

/-- Create or overwrite a file. -/
def FS.writeFile (fs : FS) (d n c : String) : FS :=
  ⟨((d, n), c) :: (fs.removeFile d n).files⟩

/-- `os.rename src dst` (no-op if the source is missing; the code only renames
files it has checked exist). -/
def FS.rename (fs : FS) (d1 n1 d2 n2 : String) : FS :=
  match fs.lookupFile d1 n1 with
  | some c => (fs.removeFile d1 n1).writeFile d2 n2 c
  | none => fs

/-- `is_cached` from `bot/cache.py`, returning the cached file name inside
`cache_dir` (the string path is `joinPath cache_dir` of it). -/
def is_cached (fs : FS) (cache_dir cache_key : String) : Option String :=
  let name := cache_key ++ ".mp4"
  if fs.hasFile cache_dir name then some name else none

/-- `f.endswith(('.mp4', '.webm', '.mkv'))`. -/
def endsWithMedia (n : String) : Bool :=
  List.isSuffixOf ".mp4".data n.data || List.isSuffixOf ".webm".data n.data ||
    List.isSuffixOf ".mkv".data n.data

/-- The `outtmpl` handed to yt-dlp by `download_format` when an
`output_basename` is given: `os.path.join(out_dir, f"{output_basename}.%(ext)s")`. -/
def outtmpl (out_dir output_basename : String) : String :=
  joinPath out_dir (output_basename ++ ".%(ext)s")

/-- The file path yt-dlp produces when it instantiates that template with a
concrete container extension. -/
def outtmplAt (out_dir output_basename ext : String) : String :=
  joinPath out_dir (output_basename ++ "." ++ ext)

/-- `download_format` from `bot/downloader.py` (with `out_dir` supplied, as in
the bot flow).  `ydl` is the external download engine: it mutates the
filesystem and raises on failure.  After the engine returns, the code locates
the produced file:
```
if output_basename:
    expected_path = os.path.join(out_dir, f"{output_basename}.mp4")
    if os.path.exists(expected_path):
        return expected_path
    for ext in ['.webm', '.mkv', '.mp4']:
        candidate = os.path.join(out_dir, f"{output_basename}{ext}")
        if os.path.exists(candidate):
            return candidate
files = [f for f in os.listdir(out_dir) if f.endswith(('.mp4', '.webm', '.mkv'))]
if not files:
    raise ValueError("Download failed.")
return os.path.join(out_dir, files[0])
```
The result is the new filesystem plus the returned path as a
`(directory, filename)` pair. -/
def download_format (fs : FS) (ydl : String → FS → Except String FS) (out_dir : String)
    (output_basename : Option String) : Except String (FS × String × String) :=
  let tmpl := match output_basename with
    | some basename => outtmpl out_dir basename
    | none => joinPath out_dir "%(id)s.%(ext)s"
  match ydl tmpl fs with
  | Except.error e => Except.error e
  | Except.ok fs' =>
    let fallback : Except String (FS × String × String) :=
      match (fs'.listdir out_dir).filter endsWithMedia with
      | [] => Except.error "Download failed."
      | f :: _ => Except.ok (fs', out_dir, f)
    match output_basename with
    | some basename =>
      if fs'.hasFile out_dir (basename ++ ".mp4") then
        Except.ok (fs', out_dir, basename ++ ".mp4")
      else
        match [".webm", ".mkv", ".mp4"].find? (fun e => fs'.hasFile out_dir (basename ++ e)) with
        | some e => Except.ok (fs', out_dir, basename ++ e)
        | none => fallback
    | none => fallback

/-- The download-and-cache flow of `handle_quality_choice` in `bot/main.py`
(lines 93–117), the spec's `obtain`:
```
cache_key = build_cache_key(video_id, label)
cached = is_cached(settings.download_dir, cache_key)
if cached:
    file_path = cached
else:
    file_path = await download_variant(url, format_id, settings.download_dir, cache_key)
    expected_path = get_cached_file_path(settings.download_dir, cache_key)
    if file_path != expected_path and os.path.exists(file_path):
        if os.path.exists(expected_path):
            os.remove(expected_path)
        os.rename(file_path, expected_path)
        file_path = expected_path
```
Returns the final filesystem, the served path as a `(directory, filename)`
pair, and whether the external download engine was invoked. -/
def obtain (fs : FS) (ydl : String → FS → Except String FS)
    (download_dir video_id label : String) :
    Except String (FS × String × String × Bool) :=
  let cache_key := build_cache_key video_id label
  match is_cached fs download_dir cache_key with
  | some name => Except.ok (fs, download_dir, name, false)
  | none =>
    match download_format fs ydl download_dir (some cache_key) with
    | Except.error e => Except.error e
    | Except.ok (fs', d, n) =>
      let expected := cache_key ++ ".mp4"
      if (d, n) ≠ (download_dir, expected) ∧ fs'.hasFile d n then
        let fs2 := if fs'.hasFile download_dir expected then
          fs'.removeFile download_dir expected else fs'
        let fs3 := fs2.rename d n download_dir expected
        Except.ok (fs3, download_dir, expected, true)
      else
        Except.ok (fs', d, n, true)

/-! ### Message handling (`bot/main.py`, `handle_url`) -/

/-- The user-visible outcome of `handle_url`. -/
inductive Reply where
  | invalidLink
  | fetchError (msg : String)
  | photoOnly
  | gifOnly
  | noVideo
  | chooseQuality (r : ExtractResult)
deriving DecidableEq

/-- `handle_url` from `bot/main.py`: extract the URL, normalize it, resolve
variants via the engine oracle, and classify the reply:
```
url = extract_url(message.text or "")
if not url: answer("Invalid or unsupported link."); return
url = normalize_twitter_url(url)
result = await extract_variants(url)   # errors reported as fetch errors
if not result.variants:
    photo / gif / no-video replies
else:
    show quality options
``` -/
def handle_url (text : String) (engine : String → Option RawInfo) : Reply :=
  match extract_url text with
  | none => Reply.invalidLink
  | some u =>
    let url := normalizeUrl u
    match extract_variants (engine url) with
    | Except.error e => Reply.fetchError e
    | Except.ok r =>
      if r.variants.isEmpty then
        if r.media_type = "photo" then Reply.photoOnly
        else if r.media_type = "gif" then Reply.gifOnly
        else Reply.noVideo
      else Reply.chooseQuality r

/-! ### Proof-side helper definitions -/

/-- The winner the deduplication loop keeps for one quality label: fold over
the label's candidates, replacing the current best only on strictly larger
(`or 0`-defaulted) filesize. -/
def pickBest : Option VideoVariant → List VideoVariant → Option VideoVariant
  | o, [] => o
  | none, v :: vs => pickBest (some v) vs
  | some e, v :: vs =>
    pickBest (some (if v.filesize.getD 0 > e.filesize.getD 0 then v else e)) vs

/-- A character list with no leading or trailing Python whitespace. -/
def strippedStr (s : List Char) : Prop :=
  (∀ c, s.head? = some c → pyWs c = false) ∧ (∀ c, s.getLast? = some c → pyWs c = false)

/-- Invariant of the `best_by_label` association list: keys are distinct and
each value's `quality_label` is its key. -/
def dedupInv (m : List (String × VideoVariant)) : Prop :=
  (m.map Prod.fst).Nodup ∧ ∀ p ∈ m, p.2.quality_label = p.1

/-! ## Lemmas: association lists and the filesystem model -/


theorem lookup_isSome_of_mem {α β : Type} [BEq α] [LawfulBEq α] {k : α} {v : β}
    {l : List (α × β)} (h : (k, v) ∈ l) : (List.lookup k l).isSome = true := by
  induction l with
  | nil => simp at h
  | cons e es ih =>
    cases e with
    | mk k' v' =>
      rcases List.mem_cons.1 h with h1 | h1
      · have : k == k' := by
          rw [show k' = k from congrArg Prod.fst h1.symm]
          exact beq_self_eq_true k
        simp [List.lookup, this]
      · by_cases hk : k == k'
        · simp [List.lookup, hk]
        · simp only [List.lookup, Bool.not_eq_true] at hk ⊢
          rw [hk]
          exact ih h1

theorem lookup_filter_stable {β : Type} (k x : String × String)
    (l : List ((String × String) × β)) (h : k ≠ x) :
    List.lookup k (l.filter (fun e => !(e.1 == x))) = List.lookup k l := by
  induction l with
  | nil => rfl
  | cons e es ih =>
    cases e with
    | mk ke ve =>
      by_cases hx : ke = x
      · subst hx
        have hk : (k == ke) = false := beq_eq_false_iff_ne.2 h
        simp only [List.filter_cons, beq_self_eq_true, Bool.not_true, Bool.false_eq_true,
          if_false, List.lookup, hk, ih]
      · have hxb : (ke == x) = false := beq_eq_false_iff_ne.2 hx
        by_cases hkk : k = ke
        · subst hkk
          simp only [List.filter_cons, hxb, Bool.not_false, if_true, List.lookup,
            beq_self_eq_true]
        · have hkb : (k == ke) = false := beq_eq_false_iff_ne.2 hkk
          simp only [List.filter_cons, hxb, Bool.not_false, if_true, List.lookup, hkb, ih]

theorem FS.lookupFile_writeFile_self (fs : FS) (d n c : String) :
    (fs.writeFile d n c).lookupFile d n = some c := by
  simp [FS.writeFile, FS.lookupFile, List.lookup]

theorem FS.lookupFile_removeFile_stable (fs : FS) {d n d' n' : String}
    (h : (d', n') ≠ (d, n)) :
    (fs.removeFile d n).lookupFile d' n' = fs.lookupFile d' n' :=
  lookup_filter_stable (d', n') (d, n) fs.files h

theorem FS.rename_lookup_target {fs : FS} {d1 n1 : String} (d2 n2 : String) {c : String}
    (h : fs.lookupFile d1 n1 = some c) :
    (fs.rename d1 n1 d2 n2).lookupFile d2 n2 = some c := by
  unfold FS.rename
  rw [h]
  exact FS.lookupFile_writeFile_self _ d2 n2 c

theorem FS.hasFile_of_mem_listdir {fs : FS} {d n : String} (h : n ∈ fs.listdir d) :
    fs.hasFile d n = true := by
  simp only [FS.listdir, List.mem_map, List.mem_filter] at h
  obtain ⟨e, ⟨he, hd⟩, hn⟩ := h
  have hpair : e.1 = (d, n) := by
    have hd' : e.1.1 = d := by simpa using hd
    exact Prod.ext hd' hn
  have hmem : ((d, n), e.2) ∈ fs.files := by
    rw [← hpair]
    simpa using he
  simpa [FS.hasFile, FS.lookupFile] using lookup_isSome_of_mem hmem

/-! ## Lemmas: the download locator and the obtain flow -/

theorem fallback_ok {fsd fs' : FS} {out_dir d n : String}
    (h : (match (fsd.listdir out_dir).filter endsWithMedia with
      | [] => (Except.error "Download failed." : Except String (FS × String × String))
      | f :: _ => Except.ok (fsd, out_dir, f)) = Except.ok (fs', d, n)) :
    fs' = fsd ∧ d = out_dir ∧ fs'.hasFile out_dir n = true := by
  cases hl : (fsd.listdir out_dir).filter endsWithMedia with
  | nil => rw [hl] at h; exact absurd h (by simp)
  | cons f rest =>
    rw [hl] at h
    simp only [Except.ok.injEq, Prod.mk.injEq] at h
    obtain ⟨h1, h2, h3⟩ := h
    subst h1 h2 h3
    refine ⟨rfl, rfl, FS.hasFile_of_mem_listdir ?_⟩
    have hf : f ∈ (fsd.listdir out_dir).filter endsWithMedia := by
      rw [hl]
      exact List.mem_cons_self f rest
    exact (List.mem_filter.1 hf).1

theorem download_format_ok {fs fs' : FS} {ydl : String → FS → Except String FS}
    {out_dir d n : String} {ob : Option String}
    (h : download_format fs ydl out_dir ob = Except.ok (fs', d, n)) :
    d = out_dir ∧ fs'.hasFile out_dir n = true := by
  simp only [download_format] at h
  cases ob with
  | none =>
    dsimp only at h
    cases hy : ydl (joinPath out_dir "%(id)s.%(ext)s") fs with
    | error e =>
      rw [hy] at h
      exact absurd h (by simp)
    | ok fsd =>
      rw [hy] at h
      dsimp only at h
      exact (fallback_ok h).2
  | some basename =>
    dsimp only at h
    cases hy : ydl (outtmpl out_dir basename) fs with
    | error e =>
      rw [hy] at h
      exact absurd h (by simp)
    | ok fsd =>
      rw [hy] at h
      dsimp only at h
      by_cases hmp4 : fsd.hasFile out_dir (basename ++ ".mp4")
      · rw [if_pos hmp4] at h
        simp only [Except.ok.injEq, Prod.mk.injEq] at h
        obtain ⟨h1, h2, h3⟩ := h
        subst h1 h2 h3
        exact ⟨rfl, hmp4⟩
      · rw [if_neg hmp4] at h
        cases hf : [".webm", ".mkv", ".mp4"].find?
            (fun e => fsd.hasFile out_dir (basename ++ e)) with
        | none =>
          rw [hf] at h
          exact (fallback_ok h).2
        | some e =>
          rw [hf] at h
          simp only [Except.ok.injEq, Prod.mk.injEq] at h
          obtain ⟨h1, h2, h3⟩ := h
          subst h1 h2 h3
          have hp := List.find?_some hf
          exact ⟨rfl, by simpa using hp⟩

theorem is_cached_some {fs : FS} {dir key name : String}
    (h : is_cached fs dir key = some name) :
    name = key ++ ".mp4" ∧ fs.hasFile dir (key ++ ".mp4") = true := by
  unfold is_cached at h
  by_cases hh : fs.hasFile dir (key ++ ".mp4")
  · rw [if_pos hh] at h
    exact ⟨(Option.some.injEq _ _ ▸ h).symm, hh⟩
  · rw [if_neg hh] at h
    exact absurd h (by simp)

theorem is_cached_of_hasFile {fs : FS} {dir key : String}
    (h : fs.hasFile dir (key ++ ".mp4") = true) :
    is_cached fs dir key = some (key ++ ".mp4") := by
  unfold is_cached
  rw [if_pos h]

theorem obtain_ok {fs fs' : FS} {ydl : String → FS → Except String FS}
    {dir vid label d n : String} {b : Bool}
    (h : obtain fs ydl dir vid label = Except.ok (fs', d, n, b)) :
    d = dir ∧ n = build_cache_key vid label ++ ".mp4" ∧ fs'.hasFile dir n = true := by
  simp only [obtain] at h
  cases hc : is_cached fs dir (build_cache_key vid label) with
  | some name =>
    rw [hc] at h
    dsimp only at h
    obtain ⟨hname, hhas⟩ := is_cached_some hc
    simp only [Except.ok.injEq, Prod.mk.injEq] at h
    obtain ⟨h1, h2, h3, h4⟩ := h
    subst h1 h2 h3
    exact ⟨rfl, hname, hname ▸ hhas⟩
  | none =>
    rw [hc] at h
    dsimp only at h
    cases hd : download_format fs ydl dir (some (build_cache_key vid label)) with
    | error e =>
      rw [hd] at h
      exact absurd h (by simp)
    | ok res =>
      obtain ⟨fsd, dd, nn⟩ := res
      obtain ⟨hdd, hex⟩ := download_format_ok hd
      rw [hd] at h
      dsimp only at h
      rw [hdd] at h
      by_cases hcond : (dir, nn) ≠ (dir, build_cache_key vid label ++ ".mp4") ∧
          fsd.hasFile dir nn = true
      · rw [if_pos hcond] at h
        simp only [Except.ok.injEq, Prod.mk.injEq] at h
        obtain ⟨h1, h2, h3, h4⟩ := h
        subst h1 h2 h3
        refine ⟨rfl, rfl, ?_⟩
        have hlook : (if fsd.hasFile dir (build_cache_key vid label ++ ".mp4") then
              fsd.removeFile dir (build_cache_key vid label ++ ".mp4")
            else fsd).lookupFile dir nn = fsd.lookupFile dir nn := by
          by_cases hre : fsd.hasFile dir (build_cache_key vid label ++ ".mp4")
          · rw [if_pos hre]
            exact FS.lookupFile_removeFile_stable fsd hcond.1
          · rw [if_neg hre]
        obtain ⟨c, hc2⟩ : ∃ c, (if fsd.hasFile dir (build_cache_key vid label ++ ".mp4") then
            fsd.removeFile dir (build_cache_key vid label ++ ".mp4")
          else fsd).lookupFile dir nn = some c := by
          rw [hlook]
          exact Option.isSome_iff_exists.1 hex
        have hfin := FS.rename_lookup_target dir (build_cache_key vid label ++ ".mp4") hc2
        simp only [FS.hasFile] at hfin ⊢
        rw [hfin]
        rfl
      · rw [if_neg hcond] at h
        simp only [Except.ok.injEq, Prod.mk.injEq] at h
        obtain ⟨h1, h2, h3, h4⟩ := h
        subst h1 h2 h3
        have hpair : (dir, nn) = (dir, build_cache_key vid label ++ ".mp4") := by
          by_contra hne
          exact hcond ⟨hne, hex⟩
        have hnn : nn = build_cache_key vid label ++ ".mp4" := by
          injection hpair with h1 h2
        exact ⟨rfl, hnn, hex⟩

/-- C2: if the canonical cache file for `key(content_id, quality_label)`
already exists under the cache root, `obtain` returns that path immediately
without invoking the external download collaborator (for every download
oracle, with the filesystem unchanged and the invoked-flag `false`); and after
any successful `obtain` call a second call with the same arguments returns the
same path from the same filesystem without a second download. -/
theorem C2_cache_hit_no_redownload :
    (∀ (fs : FS) (ydl : String → FS → Except String FS) (dir vid label : String),
      fs.hasFile dir (build_cache_key vid label ++ ".mp4") = true →
      obtain fs ydl dir vid label =
        Except.ok (fs, dir, build_cache_key vid label ++ ".mp4", false)) ∧
    (∀ (fs fs' : FS) (ydl ydl2 : String → FS → Except String FS)
      (dir vid label d n : String) (b : Bool),
      obtain fs ydl dir vid label = Except.ok (fs', d, n, b) →
      obtain fs' ydl2 dir vid label = Except.ok (fs', d, n, false)) := by
  have hit : ∀ (fs : FS) (ydl : String → FS → Except String FS) (dir vid label : String),
      fs.hasFile dir (build_cache_key vid label ++ ".mp4") = true →
      obtain fs ydl dir vid label =
        Except.ok (fs, dir, build_cache_key vid label ++ ".mp4", false) := by
    intro fs ydl dir vid label h
    simp only [obtain]
    rw [is_cached_of_hasFile h]
  refine ⟨hit, ?_⟩
  intro fs fs' ydl ydl2 dir vid label d n b h
  obtain ⟨h1, h2, h3⟩ := obtain_ok h
  rw [h1, h2]
  exact hit fs' ydl2 dir vid label (h2 ▸ h3)

/-- Witness for C2: a concrete filesystem already holding the cached file is
served from cache, and a second call after that success downloads nothing. -/
theorem C2_cache_hit_no_redownload_witness :
    obtain ⟨[(("d", build_cache_key "42" "720p" ++ ".mp4"), "bytes")]⟩
        (fun _ f => Except.ok f) "d" "42" "720p" =
      Except.ok (⟨[(("d", build_cache_key "42" "720p" ++ ".mp4"), "bytes")]⟩, "d",
        build_cache_key "42" "720p" ++ ".mp4", false) ∧
    obtain ⟨[(("d", build_cache_key "42" "720p" ++ ".mp4"), "bytes")]⟩
        (fun _ _ => Except.error "net") "d" "42" "720p" =
      Except.ok (⟨[(("d", build_cache_key "42" "720p" ++ ".mp4"), "bytes")]⟩, "d",
        build_cache_key "42" "720p" ++ ".mp4", false) := by
  have hfs : (⟨[(("d", build_cache_key "42" "720p" ++ ".mp4"), "bytes")]⟩ : FS).hasFile
      "d" (build_cache_key "42" "720p" ++ ".mp4") = true := by
    simp [FS.hasFile, FS.lookupFile, List.lookup]
  have first := C2_cache_hit_no_redownload.1
    ⟨[(("d", build_cache_key "42" "720p" ++ ".mp4"), "bytes")]⟩
    (fun _ f => Except.ok f) "d" "42" "720p" hfs
  refine ⟨first, ?_⟩
  exact C2_cache_hit_no_redownload.2 _ _ _ (fun _ _ => Except.error "net")
    "d" "42" "720p" _ _ _ first

/-- Distinct extensions after the same basename give distinct filenames. -/
theorem append_ext_ne {k e1 e2 : String} (h : e1 ≠ e2) : k ++ e1 ≠ k ++ e2 := by
  intro hk
  apply h
  have hd := congrArg String.data hk
  simp only [String.data_append] at hd
  exact String.ext (List.append_cancel_left hd)

/-- C10: on a cache miss, when the external download step produces only a
`.webm` (or, failing that, a `.mkv`) file for the cache key, `obtain` renames
that file, contents untouched, to the canonical `<key>.mp4` path, so the cache
entry bearing the `.mp4` name holds the bytes of the non-mp4 container. -/
theorem C10_non_mp4_renamed_into_cache :
    ∀ (fs fs' : FS) (ydl : String → FS → Except String FS) (dir vid label c : String),
    fs.hasFile dir (build_cache_key vid label ++ ".mp4") = false →
    ydl (outtmpl dir (build_cache_key vid label)) fs = Except.ok fs' →
    fs'.lookupFile dir (build_cache_key vid label ++ ".mp4") = none →
    ((fs'.lookupFile dir (build_cache_key vid label ++ ".webm") = some c) ∨
      (fs'.lookupFile dir (build_cache_key vid label ++ ".webm") = none ∧
        fs'.lookupFile dir (build_cache_key vid label ++ ".mkv") = some c)) →
    ∃ fs2 : FS,
      obtain fs ydl dir vid label =
        Except.ok (fs2, dir, build_cache_key vid label ++ ".mp4", true) ∧
      fs2.lookupFile dir (build_cache_key vid label ++ ".mp4") = some c := by
  intro fs fs' ydl dir vid label c hmiss hy hmp4 hsrc
  have hnotc : is_cached fs dir (build_cache_key vid label) = none := by
    unfold is_cached
    rw [if_neg (by simp [hmiss])]
  have hmp4' : fs'.hasFile dir (build_cache_key vid label ++ ".mp4") = false := by
    simp [FS.hasFile, hmp4]
  obtain ⟨ext, hextne, hlook⟩ :
      ∃ ext, (build_cache_key vid label ++ ext ≠ build_cache_key vid label ++ ".mp4") ∧
        fs'.lookupFile dir (build_cache_key vid label ++ ext) = some c ∧
        [".webm", ".mkv", ".mp4"].find?
            (fun e => fs'.hasFile dir (build_cache_key vid label ++ e)) = some ext := by
    rcases hsrc with hwebm | ⟨hwebm, hmkv⟩
    · refine ⟨".webm", append_ext_ne (by decide), hwebm, ?_⟩
      have : fs'.hasFile dir (build_cache_key vid label ++ ".webm") = true := by
        simp [FS.hasFile, hwebm]
      simp [List.find?, this]
    · refine ⟨".mkv", append_ext_ne (by decide), hmkv, ?_⟩
      have h1 : fs'.hasFile dir (build_cache_key vid label ++ ".webm") = false := by
        simp [FS.hasFile, hwebm]
      have h2 : fs'.hasFile dir (build_cache_key vid label ++ ".mkv") = true := by
        simp [FS.hasFile, hmkv]
      simp [List.find?, h1, h2]
  obtain ⟨hlook, hfind⟩ := hlook
  have hdl : download_format fs ydl dir (some (build_cache_key vid label)) =
      Except.ok (fs', dir, build_cache_key vid label ++ ext) := by
    simp only [download_format, hy]
    rw [if_neg (by simp [hmp4'])]
    rw [hfind]
  refine ⟨(if fs'.hasFile dir (build_cache_key vid label ++ ".mp4") then
      fs'.removeFile dir (build_cache_key vid label ++ ".mp4") else fs').rename
    dir (build_cache_key vid label ++ ext) dir (build_cache_key vid label ++ ".mp4"),
    ?_, ?_⟩
  · simp only [obtain, hnotc, hdl]
    rw [if_pos ⟨by
        intro hp
        exact hextne (congrArg Prod.snd hp), by simp [FS.hasFile, hlook]⟩]
  · rw [if_neg (by simp [FS.hasFile, hmp4] : ¬ fs'.hasFile dir
      (build_cache_key vid label ++ ".mp4") = true)]
    exact FS.rename_lookup_target dir (build_cache_key vid label ++ ".mp4") hlook

set_option maxRecDepth 100000 in
/-- Witness for C10: a download that produces only `<key>.webm` ends up cached
under `<key>.mp4` with identical contents. -/
theorem C10_non_mp4_renamed_into_cache_witness :
    ∃ fs2 : FS,
      obtain ⟨[]⟩
          (fun _ f => Except.ok
            (f.writeFile "d" (build_cache_key "42" "720p" ++ ".webm") "BYTES"))
          "d" "42" "720p" =
        Except.ok (fs2, "d", build_cache_key "42" "720p" ++ ".mp4", true) ∧
      fs2.lookupFile "d" (build_cache_key "42" "720p" ++ ".mp4") = some "BYTES" :=
  C10_non_mp4_renamed_into_cache ⟨[]⟩
    ((⟨[]⟩ : FS).writeFile "d" (build_cache_key "42" "720p" ++ ".webm") "BYTES")
    (fun _ f => Except.ok
      (f.writeFile "d" (build_cache_key "42" "720p" ++ ".webm") "BYTES"))
    "d" "42" "720p" "BYTES" (by decide) rfl (by decide) (Or.inl (by decide))

/-- Counterexample for C1: on a cache miss `obtain` invokes the download
collaborator with output template `outtmpl download_dir cache_key`
(`os.path.join(settings.download_dir, f"{cache_key}.%(ext)s")`, see
`download_variant(url, format_id, settings.download_dir, cache_key)` and
`download_format`).  At the concrete input below, instantiating that template
at extension `mp4` — the extension the download step is configured to produce
(`merge_output_format: "mp4"`, `FFmpegVideoConvertor` to mp4) — yields exactly
the canonical cache path `get_cached_file_path`: the external download step is
pointed directly at the canonical path, contradicting the claim that it never
writes there and that bytes appear there only by promotion. -/
theorem C1_counterexample :
    outtmplAt "/cache" (build_cache_key "42" "720p") "mp4" =
      get_cached_file_path "/cache" (build_cache_key "42" "720p") ∧
    outtmpl "/cache" (build_cache_key "42" "720p") =
      joinPath "/cache" (build_cache_key "42" "720p" ++ ".%(ext)s") :=
  ⟨rfl, rfl⟩

/-- C1 (amended): the download collaborator is invoked with the cache root and
cache key as its output template, so its target path equals the canonical
cache path exactly when the produced extension is `mp4`; only non-mp4 outputs
are afterwards renamed onto the canonical path.  When the external download
fails, `obtain` itself performs no removal or rename and propagates the error,
so any guarantee about partial files at the canonical path rests on the
collaborator, not on writing to a non-canonical location first. -/
theorem C1_amended_download_targets_canonical_path :
    (∀ dir key ext : String,
      outtmplAt dir key ext = get_cached_file_path dir key ↔ ext = "mp4") ∧
    (∀ (fs : FS) (ydl : String → FS → Except String FS) (dir vid label e : String),
      fs.hasFile dir (build_cache_key vid label ++ ".mp4") = false →
      ydl (outtmpl dir (build_cache_key vid label)) fs = Except.error e →
      obtain fs ydl dir vid label = Except.error e) := by
  constructor
  · intro dir key ext
    constructor
    · intro h
      have hd := congrArg String.data h
      simp only [outtmplAt, get_cached_file_path, joinPath, String.data_append,
        List.append_assoc] at hd
      have h1 := List.append_cancel_left hd
      have h2 := List.append_cancel_left h1
      have h3 := List.append_cancel_left h2
      apply String.ext
      simpa using h3
    · intro h
      subst h
      apply String.ext
      simp [outtmplAt, get_cached_file_path, joinPath, String.data_append]
  · intro fs ydl dir vid label e hmiss hy
    have hnotc : is_cached fs dir (build_cache_key vid label) = none := by
      unfold is_cached
      rw [if_neg (by simp [hmiss])]
    simp only [obtain, hnotc, download_format, hy]

/-- Witness for the amended C1: a failing download on a cache miss surfaces as
the engine's error, and the template equivalence holds at `mp4`/`webm`. -/
theorem C1_amended_download_targets_canonical_path_witness :
    (outtmplAt "/cache" "k" "mp4" = get_cached_file_path "/cache" "k" ↔ "mp4" = "mp4") ∧
    (outtmplAt "/cache" "k" "webm" = get_cached_file_path "/cache" "k" ↔ "webm" = "mp4") ∧
    obtain ⟨[]⟩ (fun _ _ => Except.error "network down") "d" "42" "720p" =
      Except.error "network down" :=
  ⟨C1_amended_download_targets_canonical_path.1 "/cache" "k" "mp4",
   C1_amended_download_targets_canonical_path.1 "/cache" "k" "webm",
   C1_amended_download_targets_canonical_path.2 ⟨[]⟩ (fun _ _ => Except.error "network down")
     "d" "42" "720p" "network down" (by decide) rfl⟩

/-- Doubling each list element count: length of the hex expansion. -/
theorem length_hexPairs (l : List Nat) :
    (l.flatMap (fun b => [hexChar (b / 16), hexChar (b % 16)])).length = 2 * l.length := by
  induction l with
  | nil => rfl
  | cons b bs ih =>
    show ([hexChar (b / 16), hexChar (b % 16)] ++
      bs.flatMap (fun b => [hexChar (b / 16), hexChar (b % 16)])).length = 2 * (b :: bs).length
    rw [List.length_append, ih]
    simp only [List.length_cons, List.length_nil]
    omega

/-- The SHA-256 digest always has 32 bytes. -/
theorem sha256Bytes_length (msg : List Nat) : (sha256Bytes msg).length = 32 := rfl

/-- The hexdigest always has 64 characters. -/
theorem sha256HexChars_length (msg : List Nat) : (sha256HexChars msg).length = 64 := by
  unfold sha256HexChars
  rw [length_hexPairs, sha256Bytes_length]

set_option maxRecDepth 100000 in
/-- C6: the cache key is the SHA-256 hexdigest of the UTF-8 encoding of
`"<content_id>:<quality_label>"` truncated to exactly 32 hex characters; the
same inputs always yield the identical string (the mapper is a pure function),
the three reference input pairs yield pairwise different keys, and the cache
path is the cache root joined with `"<key>.mp4"`. -/
theorem C6_cache_key_and_path :
    (∀ cid q : String, (build_cache_key cid q).length = 32) ∧
    (∀ cid q : String,
      build_cache_key cid q = ⟨(sha256HexChars (utf8Encode (cid ++ ":" ++ q))).take 32⟩) ∧
    build_cache_key "123" "720p" ≠ build_cache_key "123" "480p" ∧
    build_cache_key "123" "720p" ≠ build_cache_key "124" "720p" ∧
    (∀ dir key : String, get_cached_file_path dir key = dir ++ "/" ++ (key ++ ".mp4")) := by
  refine ⟨?_, fun _ _ => rfl, by decide, by decide, fun _ _ => rfl⟩
  intro cid q
  show ((sha256HexChars (utf8Encode (cid ++ ":" ++ q))).take 32).length = 32
  rw [List.length_take, sha256HexChars_length]
  decide

/-- C8: a message whose URL has the bare short-link host `t.co` is rejected:
the regex pattern cannot match at the start of `https://t.co/<anything>`
(after the alternation consumes `t.co` it still demands an additional `.co`
or `.com` before the slash), `extract_url` on the example message returns
`none`, so `handle_url` answers "invalid link" for every engine — even though
`normalize_twitter_url` itself canonicalizes the same URL. -/
theorem C8_bare_tco_rejected :
    (∀ rest : List Char, matchXUrl ("https://t.co/".data ++ rest) = none) ∧
    extract_url "https://t.co/a/status/1" = none ∧
    (∀ engine : String → Option RawInfo,
      handle_url "https://t.co/a/status/1" engine = Reply.invalidLink) ∧
    normalizeUrl "https://t.co/a/status/1" = "https://twitter.com/a/status/1" := by
  refine ⟨fun rest => rfl, by decide, fun engine => rfl, by decide⟩

/-- Unfolding of `extract_variants` on a truthy engine answer. -/
theorem extract_variants_some (i : RawInfo) :
    extract_variants (some i) = Except.ok
      { video_id := pyStrOr (selectItem i).id "video"
        title := pyStrOr (selectItem i).title ""
        uploader := pyOrStr (pyOrStr (selectItem i).uploader (selectItem i).channel)
          (selectItem i).uploader_id
        upload_date := (selectItem i).upload_date
        description := (selectItem i).description
        variants := resolveVariants (variantsOfFormats
          ((pyList (selectItem i).formats).filter isVideoFormat))
        media_type :=
          if !((pyList (selectItem i).formats).filter isVideoFormat).isEmpty then "video"
          else if (selectItem i).is_animated_gif || (selectItem i).animated_gif then "gif"
          else if !(pyList (selectItem i).thumbnails).isEmpty ||
              !(pyList (selectItem i).media_urls).isEmpty then "photo"
          else "none" } := rfl

/-- A falsy optional string falls through to the default in `a or d`. -/
theorem pyStrOr_of_falsy {o : Option String} {d : String} (h : truthyStr o = false) :
    pyStrOr o d = d := by
  cases o with
  | none => rfl
  | some s =>
    simp only [truthyStr, ne_eq, decide_not, Bool.not_eq_false', decide_eq_true_eq] at h
    simp [pyStrOr, h]

/-- C9: when the engine metadata carries no truthy content id (key absent or
empty string), `resolve` substitutes the constant id `"video"`; two such posts
requested at the same quality label therefore share one cache key and one
canonical cache path. -/
theorem C9_missing_id_shares_cache_entry :
    ∀ (i1 i2 : RawInfo) (r1 r2 : ExtractResult) (label dir : String),
    extract_variants (some i1) = Except.ok r1 →
    extract_variants (some i2) = Except.ok r2 →
    truthyStr (selectItem i1).id = false →
    truthyStr (selectItem i2).id = false →
    r1.video_id = "video" ∧ r2.video_id = "video" ∧
    build_cache_key r1.video_id label = build_cache_key r2.video_id label ∧
    get_cached_file_path dir (build_cache_key r1.video_id label) =
      get_cached_file_path dir (build_cache_key r2.video_id label) := by
  intro i1 i2 r1 r2 label dir h1 h2 hid1 hid2
  rw [extract_variants_some] at h1 h2
  injection h1 with h1'
  injection h2 with h2'
  have e1 : r1.video_id = "video" := by
    rw [← h1']
    exact pyStrOr_of_falsy hid1
  have e2 : r2.video_id = "video" := by
    rw [← h2']
    exact pyStrOr_of_falsy hid2
  refine ⟨e1, e2, ?_, ?_⟩
  · rw [e1, e2]
  · rw [e1, e2]

/-- Witness for C9: two id-less posts resolved at `"720p"` share the cache
key and path. -/
theorem C9_missing_id_shares_cache_entry_witness :
    (⟨"video", "", none, none, none, [], "none"⟩ : ExtractResult).video_id = "video" ∧
    (⟨"video", "", none, none, none, [], "none"⟩ : ExtractResult).video_id = "video" ∧
    build_cache_key (⟨"video", "", none, none, none, [], "none"⟩ :
        ExtractResult).video_id "720p" =
      build_cache_key (⟨"video", "", none, none, none, [], "none"⟩ :
        ExtractResult).video_id "720p" ∧
    get_cached_file_path "/cache" (build_cache_key (⟨"video", "", none, none, none, [],
        "none"⟩ : ExtractResult).video_id "720p") =
      get_cached_file_path "/cache" (build_cache_key (⟨"video", "", none, none, none, [],
        "none"⟩ : ExtractResult).video_id "720p") :=
  C9_missing_id_shares_cache_entry
    ⟨⟨none, none, none, none, none, none, none, none, none, none, false, false⟩, none⟩
    ⟨⟨none, none, none, none, none, none, none, none, none, none, false, false⟩, none⟩
    ⟨"video", "", none, none, none, [], "none"⟩
    ⟨"video", "", none, none, none, [], "none"⟩
    "720p" "/cache" rfl rfl (by decide) (by decide)

/-- Unfolding of `handle_url` once the URL is extracted and resolution
succeeds. -/
theorem handle_url_ok {text u : String} {engine : String → Option RawInfo}
    {r : ExtractResult}
    (hu : extract_url text = some u)
    (hr : extract_variants (engine (normalizeUrl u)) = Except.ok r) :
    handle_url text engine =
      if r.variants.isEmpty then
        (if r.media_type = "photo" then Reply.photoOnly
         else if r.media_type = "gif" then Reply.gifOnly
         else Reply.noVideo)
      else Reply.chooseQuality r := by
  unfold handle_url
  rw [hu]
  dsimp only
  rw [hr]

/-- C7: `resolve` fails exactly when the engine returns no usable metadata
(the falsy answer raises `ValueError`; every truthy answer resolves), and an
extraction that succeeds with no labelable video encodings but attached images
yields a valid result with `media_type = "photo"` and an empty variant list,
surfaced by `handle_url` as the dedicated photo reply instead of an error. -/
theorem C7_photo_post_is_not_a_failure :
    extract_variants none = Except.error "Could not read post or URL is invalid." ∧
    (∀ i : RawInfo, ∃ r : ExtractResult, extract_variants (some i) = Except.ok r) ∧
    (∀ (i : RawInfo) (r : ExtractResult),
      extract_variants (some i) = Except.ok r →
      (pyList (selectItem i).formats).filter isVideoFormat = [] →
      (selectItem i).is_animated_gif = false →
      (selectItem i).animated_gif = false →
      (!(pyList (selectItem i).thumbnails).isEmpty ||
        !(pyList (selectItem i).media_urls).isEmpty) = true →
      r.media_type = "photo" ∧ r.variants = []) ∧
    (∀ i : RawInfo,
      (pyList (selectItem i).formats).filter isVideoFormat = [] →
      (selectItem i).is_animated_gif = false →
      (selectItem i).animated_gif = false →
      (!(pyList (selectItem i).thumbnails).isEmpty ||
        !(pyList (selectItem i).media_urls).isEmpty) = true →
      handle_url "https://twitter.com/u/status/1" (fun _ => some i) = Reply.photoOnly) := by
  have photo : ∀ (i : RawInfo) (r : ExtractResult),
      extract_variants (some i) = Except.ok r →
      (pyList (selectItem i).formats).filter isVideoFormat = [] →
      (selectItem i).is_animated_gif = false →
      (selectItem i).animated_gif = false →
      (!(pyList (selectItem i).thumbnails).isEmpty ||
        !(pyList (selectItem i).media_urls).isEmpty) = true →
      r.media_type = "photo" ∧ r.variants = [] := by
    intro i r h hf hg1 hg2 him
    rw [extract_variants_some] at h
    injection h with h'
    constructor
    · rw [← h']
      show (if !((pyList (selectItem i).formats).filter isVideoFormat).isEmpty then "video"
        else if (selectItem i).is_animated_gif || (selectItem i).animated_gif then "gif"
        else if !(pyList (selectItem i).thumbnails).isEmpty ||
            !(pyList (selectItem i).media_urls).isEmpty then "photo"
        else "none") = "photo"
      rw [hf, hg1, hg2, him]
      rfl
    · rw [← h']
      show resolveVariants (variantsOfFormats
        ((pyList (selectItem i).formats).filter isVideoFormat)) = []
      rw [hf]
      rfl
  refine ⟨rfl, fun i => ⟨_, extract_variants_some i⟩, photo, ?_⟩
  intro i hf hg1 hg2 him
  have hu : extract_url "https://twitter.com/u/status/1" =
      some "https://twitter.com/u/status/1" := by decide
  have hmt : (if !((pyList (selectItem i).formats).filter isVideoFormat).isEmpty then "video"
      else if (selectItem i).is_animated_gif || (selectItem i).animated_gif then "gif"
      else if !(pyList (selectItem i).thumbnails).isEmpty ||
          !(pyList (selectItem i).media_urls).isEmpty then "photo"
      else "none") = "photo" := by
    rw [hf, hg1, hg2, him]
    rfl
  have hvar : resolveVariants (variantsOfFormats
      ((pyList (selectItem i).formats).filter isVideoFormat)) = [] := by
    rw [hf]
    rfl
  rw [handle_url_ok hu (extract_variants_some i)]
  dsimp only
  rw [hvar, hmt]
  rfl

/-- Witness for C7: a post with one thumbnail and no formats resolves to a
photo result with no variants and is answered with the photo reply. -/
theorem C7_photo_post_is_not_a_failure_witness :
    ((⟨"video", "", none, none, none, [], "photo"⟩ : ExtractResult).media_type = "photo" ∧
      (⟨"video", "", none, none, none, [], "photo"⟩ : ExtractResult).variants = []) ∧
    handle_url "https://twitter.com/u/status/1"
      (fun _ => some ⟨⟨none, none, none, none, none, none, none, none, some ["t"], none,
        false, false⟩, none⟩) = Reply.photoOnly :=
  ⟨C7_photo_post_is_not_a_failure.2.2.1
      ⟨⟨none, none, none, none, none, none, none, none, some ["t"], none, false, false⟩, none⟩
      ⟨"video", "", none, none, none, [], "photo"⟩
      rfl rfl rfl rfl (by decide),
   C7_photo_post_is_not_a_failure.2.2.2
      ⟨⟨none, none, none, none, none, none, none, none, some ["t"], none, false, false⟩, none⟩
      rfl rfl rfl (by decide)⟩

/-- C4: the resolved variant list is sorted ascending by the fixed preference
table over the numeric part of the quality label (`QUALITY_ORDER`, i.e. 1080
before 720 before 480 before 360 before 240), labels outside the table score
after every recognized one, ties are broken by descending filesize (the second
sort-key component), the sorted list is a permutation of the deduplicated
variants, and on present labels {360p, 1080p, 240p} the resolved order is
exactly [1080p, 360p, 240p]. -/
theorem C4_variants_sorted_by_preference :
    (∀ vs : List VideoVariant, List.Sorted sortRel (resolveVariants vs)) ∧
    (∀ vs : List VideoVariant,
      (resolveVariants vs).Perm ((best_by_label vs).map Prod.snd)) ∧
    (∀ v w : VideoVariant, qualityNum v ∈ QUALITY_ORDER → qualityNum w ∉ QUALITY_ORDER →
      (sort_key v).1 < (sort_key w).1) ∧
    resolveVariants [⟨"a", "360p", "mp4", some 1000⟩, ⟨"b", "1080p", "mp4", some 3000⟩,
        ⟨"c", "240p", "mp4", some 500⟩] =
      [⟨"b", "1080p", "mp4", some 3000⟩, ⟨"a", "360p", "mp4", some 1000⟩,
        ⟨"c", "240p", "mp4", some 500⟩] := by
  refine ⟨fun vs => List.sorted_insertionSort sortRel _,
    fun vs => List.perm_insertionSort sortRel _, ?_, by decide⟩
  intro v w hv hw
  simp only [sort_key, hv, hw, if_pos, if_neg, if_true, if_false]
  exact List.indexOf_lt_length.2 hv

/-- Witness for C4: a recognized label (`720p`) scores strictly before an
unrecognized one (`999p`). -/
theorem C4_variants_sorted_by_preference_witness :
    (sort_key ⟨"a", "720p", "mp4", none⟩).1 < (sort_key ⟨"b", "999p", "mp4", none⟩).1 :=
  C4_variants_sorted_by_preference.2.2.1 ⟨"a", "720p", "mp4", none⟩
    ⟨"b", "999p", "mp4", none⟩ (by decide) (by decide)

/-! ## Lemmas: the deduplication dictionary -/

theorem lookup_map_update_self (m : List (String × VideoVariant)) (lab : String)
    (v : VideoVariant) :
    List.lookup lab (m.map (fun p => if p.1 = lab then (lab, v) else p)) =
      (List.lookup lab m).map (fun _ => v) := by
  induction m with
  | nil => rfl
  | cons e es ih =>
    cases e with
    | mk k x =>
      by_cases hk : k = lab
      · subst hk
        rw [List.map_cons, if_pos (show (k, x).1 = k from rfl)]
        simp [List.lookup]
      · have hkb : (lab == k) = false := beq_eq_false_iff_ne.2 (Ne.symm hk)
        rw [List.map_cons, if_neg (show ¬(k, x).1 = lab from hk)]
        simp only [List.lookup, hkb, ih]

theorem lookup_map_update_ne (m : List (String × VideoVariant)) {lab L : String}
    (v : VideoVariant) (hL : L ≠ lab) :
    List.lookup L (m.map (fun p => if p.1 = lab then (lab, v) else p)) =
      List.lookup L m := by
  induction m with
  | nil => rfl
  | cons e es ih =>
    cases e with
    | mk k x =>
      by_cases hk : k = lab
      · subst hk
        have hLb : (L == k) = false := beq_eq_false_iff_ne.2 hL
        rw [List.map_cons, if_pos (show (k, x).1 = k from rfl)]
        simp only [List.lookup, hLb, ih]
      · rw [List.map_cons, if_neg (show ¬(k, x).1 = lab from hk)]
        by_cases hLk : L = k
        · subst hLk
          simp [List.lookup, ih]
        · have hLkb : (L == k) = false := beq_eq_false_iff_ne.2 hLk
          simp only [List.lookup, hLkb, ih]

theorem dedupStep_lookup_self (m : List (String × VideoVariant)) (v : VideoVariant) :
    List.lookup v.quality_label (dedupStep m v) =
      pickBest (List.lookup v.quality_label m) [v] := by
  unfold dedupStep
  cases hl : List.lookup v.quality_label m with
  | none =>
    dsimp only
    rw [List.lookup_append, hl]
    simp [List.lookup, pickBest]
  | some e =>
    dsimp only
    by_cases hgt : v.filesize.getD 0 > e.filesize.getD 0
    · rw [if_pos hgt]
      rw [lookup_map_update_self, hl]
      simp [pickBest, hgt]
    · rw [if_neg hgt]
      rw [hl]
      simp [pickBest, hgt]

theorem dedupStep_lookup_ne (m : List (String × VideoVariant)) (v : VideoVariant)
    {L : String} (hL : L ≠ v.quality_label) :
    List.lookup L (dedupStep m v) = List.lookup L m := by
  unfold dedupStep
  cases hl : List.lookup v.quality_label m with
  | none =>
    dsimp only
    rw [List.lookup_append]
    have hnone : List.lookup L [(v.quality_label, v)] = none := by
      simp [List.lookup, beq_eq_false_iff_ne.2 hL]
    rw [hnone]
    exact Option.or_none
  | some e =>
    dsimp only
    by_cases hgt : v.filesize.getD 0 > e.filesize.getD 0
    · rw [if_pos hgt]
      exact lookup_map_update_ne m v hL
    · rw [if_neg hgt]

theorem pickBest_nil (o : Option VideoVariant) : pickBest o [] = o := by
  cases o with
  | none => rfl
  | some e => rfl

theorem pickBest_cons (o : Option VideoVariant) (v : VideoVariant)
    (l : List VideoVariant) : pickBest o (v :: l) = pickBest (pickBest o [v]) l := by
  cases o with
  | none => rfl
  | some e => rfl

theorem best_lookup : ∀ (vs : List VideoVariant) (m : List (String × VideoVariant))
    (L : String),
    List.lookup L (vs.foldl dedupStep m) =
      pickBest (List.lookup L m) (vs.filter (fun v => v.quality_label == L)) := by
  intro vs
  induction vs with
  | nil =>
    intro m L
    rw [List.foldl_nil, List.filter_nil, pickBest_nil]
  | cons v vs ih =>
    intro m L
    rw [List.foldl_cons, ih]
    by_cases hv : v.quality_label = L
    · subst hv
      rw [dedupStep_lookup_self]
      rw [List.filter_cons, if_pos (by simp)]
      conv_rhs => rw [pickBest_cons]
    · rw [dedupStep_lookup_ne m v (Ne.symm hv)]
      rw [List.filter_cons, if_neg (by simp [hv])]

theorem pickBest_some_spec :
    ∀ (cl : List VideoVariant) (e b : VideoVariant),
    pickBest (some e) cl = some b →
    (b = e ∧ ∀ w ∈ cl, w.filesize.getD 0 ≤ e.filesize.getD 0) ∨
    (∃ pre post, cl = pre ++ b :: post ∧
      e.filesize.getD 0 < b.filesize.getD 0 ∧
      (∀ w ∈ pre, w.filesize.getD 0 < b.filesize.getD 0) ∧
      (∀ w ∈ post, w.filesize.getD 0 ≤ b.filesize.getD 0)) := by
  intro cl
  induction cl with
  | nil =>
    intro e b h
    left
    refine ⟨?_, by simp⟩
    have : some e = some b := h
    exact (Option.some.injEq _ _ ▸ this).symm
  | cons v rest ih =>
    intro e b h
    by_cases hgt : v.filesize.getD 0 > e.filesize.getD 0
    · have h' : pickBest (some v) rest = some b := by
        have : pickBest (some (if v.filesize.getD 0 > e.filesize.getD 0 then v else e))
            rest = some b := h
        rwa [if_pos hgt] at this
      rcases ih v b h' with ⟨hbe, hall⟩ | ⟨pre, post, hdec, hlt, hpre, hpost⟩
      · subst hbe
        right
        exact ⟨[], rest, rfl, hgt, by simp, hall⟩
      · right
        refine ⟨v :: pre, post, by rw [hdec]; rfl, lt_trans hgt hlt, ?_, hpost⟩
        intro w hw
        rcases List.mem_cons.1 hw with hw | hw
        · subst hw; exact hlt
        · exact hpre w hw
    · have h' : pickBest (some e) rest = some b := by
        have : pickBest (some (if v.filesize.getD 0 > e.filesize.getD 0 then v else e))
            rest = some b := h
        rwa [if_neg hgt] at this
      rcases ih e b h' with ⟨hbe, hall⟩ | ⟨pre, post, hdec, hlt, hpre, hpost⟩
      · left
        refine ⟨hbe, ?_⟩
        intro w hw
        rcases List.mem_cons.1 hw with hw | hw
        · subst hw; omega
        · exact hall w hw
      · right
        refine ⟨v :: pre, post, by rw [hdec]; rfl, hlt, ?_, hpost⟩
        intro w hw
        rcases List.mem_cons.1 hw with hw | hw
        · subst hw; omega
        · exact hpre w hw

theorem pickBest_none_spec (cl : List VideoVariant) (b : VideoVariant)
    (h : pickBest none cl = some b) :
    ∃ pre post, cl = pre ++ b :: post ∧
      (∀ w ∈ pre, w.filesize.getD 0 < b.filesize.getD 0) ∧
      (∀ w ∈ post, w.filesize.getD 0 ≤ b.filesize.getD 0) := by
  cases cl with
  | nil => exact absurd h (by simp [pickBest])
  | cons v rest =>
    have h' : pickBest (some v) rest = some b := h
    rcases pickBest_some_spec rest v b h' with ⟨hbe, hall⟩ |
      ⟨pre, post, hdec, hlt, hpre, hpost⟩
    · subst hbe
      exact ⟨[], rest, rfl, by simp, hall⟩
    · refine ⟨v :: pre, post, by rw [hdec]; rfl, ?_, hpost⟩
      intro w hw
      rcases List.mem_cons.1 hw with hw | hw
      · subst hw
        exact hlt
      · exact hpre w hw

theorem not_mem_keys_of_lookup_none {m : List (String × VideoVariant)} {k : String}
    (h : List.lookup k m = none) : k ∉ m.map Prod.fst := by
  induction m with
  | nil => simp
  | cons e es ih =>
    cases e with
    | mk k' x =>
      intro hmem
      rcases List.mem_cons.1 hmem with hk | hk
      · simp only at hk
        subst hk
        simp [List.lookup] at h
      · by_cases hkk : k == k'
        · simp [List.lookup, hkk] at h
        · simp only [List.lookup, Bool.not_eq_true] at hkk
          rw [List.lookup, hkk] at h
          exact ih h hk

theorem keys_map_update (m : List (String × VideoVariant)) (lab : String)
    (v : VideoVariant) :
    (m.map (fun p => if p.1 = lab then (lab, v) else p)).map Prod.fst =
      m.map Prod.fst := by
  rw [List.map_map]
  apply List.map_congr_left
  intro p _
  by_cases hp : p.1 = lab
  · simp [Function.comp, hp]
  · simp [Function.comp, hp]

theorem dedupInv_dedupStep {m : List (String × VideoVariant)} (v : VideoVariant)
    (hm : dedupInv m) : dedupInv (dedupStep m v) := by
  obtain ⟨hnd, hval⟩ := hm
  unfold dedupStep
  cases hl : List.lookup v.quality_label m with
  | none =>
    dsimp only
    constructor
    · rw [List.map_append]
      simp only [List.map_cons, List.map_nil]
      rw [List.nodup_append]
      refine ⟨hnd, List.nodup_singleton _, ?_⟩
      intro a ha hb
      simp only [List.mem_singleton] at hb
      subst hb
      exact not_mem_keys_of_lookup_none hl ha
    · intro p hp
      rcases List.mem_append.1 hp with hp | hp
      · exact hval p hp
      · simp only [List.mem_singleton] at hp
        subst hp
        rfl
  | some e =>
    dsimp only
    by_cases hgt : v.filesize.getD 0 > e.filesize.getD 0
    · rw [if_pos hgt]
      constructor
      · rw [keys_map_update]
        exact hnd
      · intro p hp
        rcases List.mem_map.1 hp with ⟨q, hq, hfq⟩
        by_cases hq1 : q.1 = v.quality_label
        · rw [if_pos hq1] at hfq
          rw [← hfq]
        · rw [if_neg hq1] at hfq
          rw [← hfq]
          exact hval q hq
    · rw [if_neg hgt]
      exact ⟨hnd, hval⟩

theorem dedupInv_foldl (vs : List VideoVariant) :
    ∀ m : List (String × VideoVariant), dedupInv m → dedupInv (vs.foldl dedupStep m) := by
  induction vs with
  | nil => intro m hm; exact hm
  | cons v vs ih =>
    intro m hm
    rw [List.foldl_cons]
    exact ih _ (dedupInv_dedupStep v hm)

theorem dedupInv_best (vs : List VideoVariant) : dedupInv (best_by_label vs) :=
  dedupInv_foldl vs [] ⟨List.nodup_nil, by simp⟩

theorem lookup_of_mem_nodup {m : List (String × VideoVariant)} {k : String}
    {v : VideoVariant} (hnd : (m.map Prod.fst).Nodup) (hmem : (k, v) ∈ m) :
    List.lookup k m = some v := by
  induction m with
  | nil => simp at hmem
  | cons e es ih =>
    cases e with
    | mk k' x =>
      rcases List.mem_cons.1 hmem with hp | hp
      · have hk : k = k' := congrArg Prod.fst hp
        have hv : v = x := congrArg Prod.snd hp
        subst hk hv
        simp [List.lookup]
      · have hk : k ≠ k' := by
          intro hkk
          subst hkk
          have : k ∈ es.map Prod.fst := List.mem_map.2 ⟨(k, v), hp, rfl⟩
          simp only [List.map_cons, List.nodup_cons] at hnd
          exact hnd.1 this
        rw [List.lookup, beq_eq_false_iff_ne.2 hk]
        exact ih (by simpa using (List.nodup_cons.1 (by simpa using hnd)).2) hp

/-- C3: the resolved variant list has at most one variant per distinct quality
label; the survivor for a label is the first-encountered candidate of maximal
`or 0`-defaulted filesize among that label's candidates (every earlier
candidate is strictly smaller, every later one no larger — so a larger known
filesize wins and ties keep the first encountered); and two `720p` candidates
with filesizes 100 and 200 resolve to exactly the one `720p` variant with
filesize 200. -/
theorem C3_dedup_keeps_largest_per_label :
    (∀ vs : List VideoVariant,
      (resolveVariants vs).Pairwise (fun a b => a.quality_label ≠ b.quality_label)) ∧
    (∀ (vs : List VideoVariant) (v : VideoVariant), v ∈ resolveVariants vs →
      ∃ pre post,
        vs.filter (fun w => w.quality_label == v.quality_label) = pre ++ v :: post ∧
        (∀ w ∈ pre, w.filesize.getD 0 < v.filesize.getD 0) ∧
        (∀ w ∈ post, w.filesize.getD 0 ≤ v.filesize.getD 0)) ∧
    resolveVariants [⟨"f1", "720p", "mp4", some 100⟩, ⟨"f2", "720p", "mp4", some 200⟩] =
      [⟨"f2", "720p", "mp4", some 200⟩] := by
  refine ⟨?_, ?_, by decide⟩
  · intro vs
    obtain ⟨hnd, hval⟩ := dedupInv_best vs
    have hpm : (best_by_label vs).Pairwise
        (fun p q : String × VideoVariant => p.1 ≠ q.1) :=
      List.pairwise_map.1 hnd
    have hpl : (best_by_label vs).Pairwise
        (fun p q : String × VideoVariant =>
          p.2.quality_label ≠ q.2.quality_label) := by
      refine List.Pairwise.imp_of_mem ?_ hpm
      intro p q hp hq hne
      rw [hval p hp, hval q hq]
      exact hne
    have hvals : ((best_by_label vs).map Prod.snd).Pairwise
        (fun a b => a.quality_label ≠ b.quality_label) := List.pairwise_map.2 hpl
    exact ((List.perm_insertionSort sortRel _).pairwise_iff
      (fun hab => hab.symm)).2 hvals
  · intro vs v hv
    have hv' : v ∈ (best_by_label vs).map Prod.snd := by
      have : v ∈ List.insertionSort sortRel ((best_by_label vs).map Prod.snd) := hv
      exact (List.mem_insertionSort sortRel).1 this
    obtain ⟨p, hpmem, hpsnd⟩ := List.mem_map.1 hv'
    obtain ⟨k, w⟩ := p
    have hw : w = v := hpsnd
    subst hw
    have hinv := dedupInv_best vs
    have hlab : w.quality_label = k := hinv.2 (k, w) hpmem
    have hlk : List.lookup k (best_by_label vs) = some w :=
      lookup_of_mem_nodup hinv.1 hpmem
    have hfold : List.lookup k (vs.foldl dedupStep []) =
        pickBest none (vs.filter (fun u => u.quality_label == k)) := best_lookup vs [] k
    rw [show best_by_label vs = vs.foldl dedupStep [] from rfl, hfold] at hlk
    have hdec := pickBest_none_spec _ w hlk
    rw [← hlab] at hdec
    exact hdec

/-- Witness for C3: the survivor decomposition at the two-`720p` example. -/
theorem C3_dedup_keeps_largest_per_label_witness :
    ∃ pre post,
      ([⟨"f1", "720p", "mp4", some 100⟩,
        ⟨"f2", "720p", "mp4", some 200⟩] : List VideoVariant).filter
          (fun w => w.quality_label ==
            (⟨"f2", "720p", "mp4", some 200⟩ : VideoVariant).quality_label) =
        pre ++ ⟨"f2", "720p", "mp4", some 200⟩ :: post ∧
      (∀ w ∈ pre, w.filesize.getD 0 <
        (⟨"f2", "720p", "mp4", some 200⟩ : VideoVariant).filesize.getD 0) ∧
      (∀ w ∈ post, w.filesize.getD 0 ≤
        (⟨"f2", "720p", "mp4", some 200⟩ : VideoVariant).filesize.getD 0) :=
  C3_dedup_keeps_largest_per_label.2.1
    [⟨"f1", "720p", "mp4", some 100⟩, ⟨"f2", "720p", "mp4", some 200⟩]
    ⟨"f2", "720p", "mp4", some 200⟩ (by decide)

/-! ## Lemmas: the URL normalizer -/

theorem containsSub_true_iff {s pat : List Char} :
    containsSub s pat = true ↔ pat <:+: s := by
  simp [containsSub]

theorem containsSub_false_iff {s pat : List Char} :
    containsSub s pat = false ↔ ¬pat <:+: s := by
  simp [containsSub]

theorem head?_dropWhile_not {p : Char → Bool} :
    ∀ {l : List Char} {c : Char}, (l.dropWhile p).head? = some c → p c = false := by
  intro l
  induction l with
  | nil => intro c h; simp at h
  | cons a as ih =>
    intro c h
    rw [List.dropWhile_cons] at h
    by_cases hp : p a = true
    · rw [if_pos hp] at h
      exact ih h
    · rw [if_neg hp] at h
      simp only [List.head?_cons, Option.some.injEq] at h
      subst h
      exact Bool.not_eq_true _ ▸ hp

theorem getLast?_of_suffix {l₂ l₁ : List Char} {c : Char} (hs : l₂ <:+ l₁)
    (h : l₂.getLast? = some c) : l₁.getLast? = some c := by
  obtain ⟨t, ht⟩ := hs
  rw [← ht, List.getLast?_append, h]
  rfl

theorem strippedStr_pyStrip (s : List Char) : strippedStr (pyStrip s) := by
  unfold pyStrip strippedStr
  constructor
  · intro c h
    rw [List.head?_reverse] at h
    have h1 := getLast?_of_suffix (List.dropWhile_suffix pyWs) h
    rw [List.getLast?_reverse] at h1
    exact head?_dropWhile_not h1
  · intro c h
    rw [List.getLast?_reverse] at h
    exact head?_dropWhile_not h

theorem dropWhile_eq_self_of_head {p : Char → Bool} {l : List Char}
    (h : ∀ c, l.head? = some c → p c = false) : l.dropWhile p = l := by
  cases l with
  | nil => rfl
  | cons a as =>
    rw [List.dropWhile_cons, if_neg (by simp [h a rfl])]

theorem pyStrip_eq_self {s : List Char} (h : strippedStr s) : pyStrip s = s := by
  obtain ⟨h1, h2⟩ := h
  unfold pyStrip
  rw [dropWhile_eq_self_of_head h1]
  rw [dropWhile_eq_self_of_head (by
    intro c hc
    rw [List.head?_reverse] at hc
    exact h2 c hc)]
  exact List.reverse_reverse s

theorem replaceAllAux_ne_nil {pat rep : List Char} (hrep : rep ≠ []) :
    ∀ (fuel : Nat) {s : List Char}, s ≠ [] → replaceAllAux pat rep fuel s ≠ [] := by
  intro fuel s hs
  cases fuel with
  | zero =>
    cases s with
    | nil => exact absurd rfl hs
    | cons c cs => simp [replaceAllAux]
  | succ fuel =>
    cases s with
    | nil => exact absurd rfl hs
    | cons c cs =>
      simp only [replaceAllAux]
      by_cases hp : pat.isPrefixOf (c :: cs) = true
      · rw [if_pos hp]
        simp [hrep]
      · rw [if_neg hp]
        simp

theorem head?_replaceAllAux {pat rep : List Char} (hrep : rep ≠ []) :
    ∀ (fuel : Nat) (s : List Char) (c : Char),
      (replaceAllAux pat rep fuel s).head? = some c →
      s.head? = some c ∨ rep.head? = some c := by
  intro fuel
  induction fuel with
  | zero =>
    intro s c h
    cases s with
    | nil => simp [replaceAllAux] at h
    | cons a as => exact Or.inl h
  | succ fuel ih =>
    intro s c h
    cases s with
    | nil => simp [replaceAllAux] at h
    | cons a as =>
      simp only [replaceAllAux] at h
      by_cases hp : pat.isPrefixOf (a :: as) = true
      · rw [if_pos hp] at h
        right
        cases rep with
        | nil => exact absurd rfl hrep
        | cons r rl =>
          rw [List.cons_append, List.head?_cons] at h
          rw [List.head?_cons]
          exact h
      · rw [if_neg hp] at h
        rw [List.head?_cons] at h
        exact Or.inl (by rw [List.head?_cons]; exact h)

theorem getLast?_replaceAllAux {pat rep : List Char} (hrep : rep ≠ []) :
    ∀ (fuel : Nat) (s : List Char) (c : Char),
      (replaceAllAux pat rep fuel s).getLast? = some c →
      s.getLast? = some c ∨ rep.getLast? = some c := by
  intro fuel
  induction fuel with
  | zero =>
    intro s c h
    cases s with
    | nil => simp [replaceAllAux] at h
    | cons a as => exact Or.inl h
  | succ fuel ih =>
    intro s c h
    cases s with
    | nil => simp [replaceAllAux] at h
    | cons a as =>
      simp only [replaceAllAux] at h
      by_cases hp : pat.isPrefixOf (a :: as) = true
      · rw [if_pos hp, List.getLast?_append] at h
        cases hrec : (replaceAllAux pat rep fuel ((a :: as).drop pat.length)).getLast? with
        | none =>
          rw [hrec] at h
          simp only [Option.or] at h
          exact Or.inr h
        | some d =>
          rw [hrec] at h
          simp only [Option.or, Option.some.injEq] at h
          subst h
          rcases ih ((a :: as).drop pat.length) d hrec with hdrop | hr
          · exact Or.inl (getLast?_of_suffix (List.drop_suffix pat.length (a :: as)) hdrop)
          · exact Or.inr hr
      · rw [if_neg hp] at h
        cases has : as with
        | nil =>
          rw [has] at h
          have hred : replaceAllAux pat rep fuel ([] : List Char) = [] := by
            cases fuel <;> rfl
          rw [hred] at h
          simp only [List.getLast?_singleton, Option.some.injEq] at h
          subst h
          exact Or.inl (by simp)
        | cons b bs =>
          have hne : replaceAllAux pat rep fuel as ≠ [] :=
            replaceAllAux_ne_nil hrep fuel (by rw [has]; simp)
          obtain ⟨d, rest, hdr⟩ : ∃ d rest, replaceAllAux pat rep fuel as = d :: rest := by
            cases hx : replaceAllAux pat rep fuel as with
            | nil => exact absurd hx hne
            | cons d rest => exact ⟨d, rest, rfl⟩
          rw [hdr, List.getLast?_cons_cons, ← hdr] at h
          rcases ih as c h with has' | hr
          · left
            rw [has] at has'
            rw [List.getLast?_cons_cons]
            exact has'
          · exact Or.inr hr

theorem strippedStr_replaceAll {pat rep s : List Char} (hs : strippedStr s)
    (hrep : rep ≠ [])
    (hrh : ∀ c, rep.head? = some c → pyWs c = false)
    (hrl : ∀ c, rep.getLast? = some c → pyWs c = false) :
    strippedStr (replaceAll pat rep s) := by
  constructor
  · intro c h
    rcases head?_replaceAllAux hrep s.length s c h with hh | hh
    · exact hs.1 c hh
    · exact hrh c hh
  · intro c h
    rcases getLast?_replaceAllAux hrep s.length s c h with hh | hh
    · exact hs.2 c hh
    · exact hrl c hh

theorem replaceAllAux_of_not_contains {pat rep : List Char} :
    ∀ (fuel : Nat) (s : List Char), containsSub s pat = false →
      replaceAllAux pat rep fuel s = s := by
  intro fuel
  induction fuel with
  | zero =>
    intro s h
    cases s with
    | nil => rfl
    | cons c cs => rfl
  | succ fuel ih =>
    intro s h
    cases s with
    | nil => rfl
    | cons c cs =>
      have hni := containsSub_false_iff.1 h
      have hpre : pat.isPrefixOf (c :: cs) = false := by
        by_contra hb
        rw [Bool.not_eq_false] at hb
        exact hni (List.isPrefixOf_iff_prefix.1 hb).isInfix
      simp only [replaceAllAux, hpre, Bool.false_eq_true, if_false]
      have hcs : containsSub cs pat = false :=
        containsSub_false_iff.2 (fun hinf => hni (List.infix_cons hinf))
      rw [ih cs hcs]

theorem replaceAll_of_not_contains {pat rep s : List Char}
    (h : containsSub s pat = false) : replaceAll pat rep s = s :=
  replaceAllAux_of_not_contains s.length s h

theorem rep_infix_replaceAllAux {pat rep : List Char} (hpat : pat ≠ []) :
    ∀ (fuel : Nat) (s : List Char), s.length ≤ fuel → containsSub s pat = true →
      rep <:+: replaceAllAux pat rep fuel s := by
  intro fuel
  induction fuel with
  | zero =>
    intro s hlen h
    have hs : s = [] := List.length_eq_zero.1 (Nat.le_zero.1 hlen)
    subst hs
    have := containsSub_true_iff.1 h
    rw [List.infix_nil] at this
    exact absurd this hpat
  | succ fuel ih =>
    intro s hlen h
    cases s with
    | nil =>
      have := containsSub_true_iff.1 h
      rw [List.infix_nil] at this
      exact absurd this hpat
    | cons c cs =>
      by_cases hpre : pat.isPrefixOf (c :: cs) = true
      · simp only [replaceAllAux, hpre, if_true]
        exact ⟨[], replaceAllAux pat rep fuel ((c :: cs).drop pat.length), rfl⟩
      · simp only [replaceAllAux, hpre, Bool.false_eq_true, if_false]
        have hinf : pat <:+: (c :: cs) := containsSub_true_iff.1 h
        have hcs : pat <:+: cs := by
          rcases List.infix_cons_iff.1 hinf with hp | hi
          · exact absurd (List.isPrefixOf_iff_prefix.2 hp) (by simpa using hpre)
          · exact hi
        have hlen' : cs.length ≤ fuel := by
          simp only [List.length_cons] at hlen
          omega
        exact List.infix_cons (ih cs hlen' (containsSub_true_iff.2 hcs))

theorem rep_infix_replaceAll {pat rep s : List Char} (hpat : pat ≠ [])
    (h : containsSub s pat = true) : rep <:+: replaceAll pat rep s :=
  rep_infix_replaceAllAux hpat s.length s (Nat.le_refl _) h

theorem head_ws_of_lit {l : List Char} {d : Char} (hl : l.head? = some d)
    (hd : pyWs d = false) : ∀ c, l.head? = some c → pyWs c = false := by
  intro c hc
  rw [hl] at hc
  injection hc with hc
  subst hc
  exact hd

theorem last_ws_of_lit {l : List Char} {d : Char} (hl : l.getLast? = some d)
    (hd : pyWs d = false) : ∀ c, l.getLast? = some c → pyWs c = false := by
  intro c hc
  rw [hl] at hc
  injection hc with hc
  subst hc
  exact hd

theorem strippedStr_normalize (u : List Char) :
    strippedStr (normalize_twitter_url u) := by
  have step : ∀ (pat : List Char) (c : Prop) (inst : Decidable c) (s : List Char),
      strippedStr s →
      strippedStr (@ite _ c inst (replaceAll pat twitterSlashStr s) s) := by
    intro pat c inst s hs
    by_cases hc : c
    · rw [if_pos hc]
      exact strippedStr_replaceAll hs (by decide)
        (head_ws_of_lit rfl (by decide)) (last_ws_of_lit rfl (by decide))
    · rw [if_neg hc]
      exact hs
  have h2 : strippedStr (replaceAll mobileStr twitterStr (pyStrip u)) :=
    strippedStr_replaceAll (strippedStr_pyStrip u) (by decide)
      (head_ws_of_lit rfl (by decide)) (last_ws_of_lit rfl (by decide))
  exact step tCoStr _ _ _ (step xComStr _ _ _ h2)

theorem contains_twitter_after_normalize (u : List Char) :
    (containsSub (normalize_twitter_url u) xComStr = true →
      containsSub (normalize_twitter_url u) twitterStr = true) ∧
    (containsSub (normalize_twitter_url u) tCoStr = true →
      containsSub (normalize_twitter_url u) twitterStr = true) := by
  have hts : twitterStr <:+: twitterSlashStr := by decide
  simp only [normalize_twitter_url]
  set u2 := replaceAll mobileStr twitterStr (pyStrip u) with hu2
  by_cases c3 : (containsSub u2 xComStr && !containsSub u2 twitterStr) = true
  · rw [if_pos c3]
    have c3' := c3
    rw [Bool.and_eq_true] at c3'
    have hRt : containsSub (replaceAll xComStr twitterSlashStr u2) twitterStr = true :=
      containsSub_true_iff.2 (hts.trans
        (rep_infix_replaceAll (by decide) c3'.1))
    rw [if_neg (by rw [hRt]; simp)]
    exact ⟨fun _ => hRt, fun _ => hRt⟩
  · rw [if_neg c3]
    by_cases c4 : (containsSub u2 tCoStr && !containsSub u2 twitterStr) = true
    · rw [if_pos c4]
      have c4' := c4
      rw [Bool.and_eq_true] at c4'
      have hRt : containsSub (replaceAll tCoStr twitterSlashStr u2) twitterStr = true :=
        containsSub_true_iff.2 (hts.trans
          (rep_infix_replaceAll (by decide) c4'.1))
      exact ⟨fun _ => hRt, fun _ => hRt⟩
    · rw [if_neg c4]
      constructor
      · intro hx
        by_contra ht
        have ht' : containsSub u2 twitterStr = false := by simpa using ht
        exact c3 (by rw [hx, ht']; rfl)
      · intro htc
        by_contra ht
        have ht' : containsSub u2 twitterStr = false := by simpa using ht
        exact c4 (by rw [htc, ht']; rfl)

/-- Counterexample for C5: `normalize_twitter_url` is not idempotent on every
input; on `"https://mobile.x.com/a/status/1"` the first pass produces
`"https://mobile.twitter.com/a/status/1"` (the `x.com/` rewrite manufactures a
`mobile.twitter.com` host) and the second pass rewrites it again. -/
theorem C5_counterexample :
    normalize_twitter_url (normalize_twitter_url "https://mobile.x.com/a/status/1".data) ≠
      normalize_twitter_url "https://mobile.x.com/a/status/1".data := by
  decide

/-- C5 (amended): normalization is idempotent on every input whose normalized
form does not contain `"mobile.twitter.com"` — in particular on every string
the alias rewrites cannot re-expose (the spec's tested alias forms); the
secondary-alias rewrites themselves only fire when the canonical host is
absent, and any rewrite inserts the canonical host, so only a manufactured
`mobile.` prefix can make a second pass differ. -/
theorem C5_amended_conditional_idempotence :
    ∀ u : List Char,
      containsSub (normalize_twitter_url u) mobileStr = false →
      normalize_twitter_url (normalize_twitter_url u) = normalize_twitter_url u := by
  intro u hm
  have hstr := strippedStr_normalize u
  obtain ⟨hx, htc⟩ := contains_twitter_after_normalize u
  set v := normalize_twitter_url u with hv
  show normalize_twitter_url v = v
  simp only [normalize_twitter_url]
  rw [pyStrip_eq_self hstr]
  rw [replaceAll_of_not_contains hm]
  have hc3 : (containsSub v xComStr && !containsSub v twitterStr) = false := by
    by_cases hxv : containsSub v xComStr = true
    · rw [hxv, hx hxv]
      rfl
    · rw [show containsSub v xComStr = false by simpa using hxv]
      rfl
  have hc4 : (containsSub v tCoStr && !containsSub v twitterStr) = false := by
    by_cases htv : containsSub v tCoStr = true
    · rw [htv, htc htv]
      rfl
    · rw [show containsSub v tCoStr = false by simpa using htv]
      rfl
  rw [hc3]
  simp only [Bool.false_eq_true, if_false]
  rw [hc4]
  simp only [Bool.false_eq_true, if_false]

/-- Witness for the amended C5: idempotence at a canonical-alias input. -/
theorem C5_amended_conditional_idempotence_witness :
    normalize_twitter_url (normalize_twitter_url "https://x.com/a/status/1".data) =
      normalize_twitter_url "https://x.com/a/status/1".data :=
  C5_amended_conditional_idempotence "https://x.com/a/status/1".data (by decide)
